import Mathlib

/-!
Verification of the per-read sequence-cleaning pipeline of
strip_primer_tails.py: primer-tail removal, quality-sentinel tail trimming,
minimum-length filtering, and the per-file dispatch loop.

The embedding models a Biopython SeqRecord as a Read carrying a nucleotide
list and a parallel Phred-quality list; slicing a SeqRecord slices both in
lockstep, which Read.truncate reproduces.  Integer command-line parameters
are embedded as Int.
-/

namespace StripPrimerTails

/-- Embeds the read record (a Bio SeqRecord as used by the pipeline): a
nucleotide sequence, its per-base Phred quality scores, and an identifier. -/
structure Read where
  sequence : List Char
  quality : List Int
  id : String
deriving DecidableEq, Repr

/-- Embeds Python slicing of a SeqRecord, record[:n], which truncates the
sequence list and the quality list together. -/
def Read.truncate (r : Read) (n : Nat) : Read :=
  ⟨r.sequence.take n, r.quality.take n, r.id⟩

/-- The data-model invariant of a Read: sequence and quality have equal
length (Biopython enforces this for per-letter data). -/
def Read.wf (r : Read) : Prop :=
  r.sequence.length = r.quality.length

/-- Embeds the result of difflib.SequenceMatcher.find_longest_match: a block
of size elements starting at offset a of the first sequence and offset b of
the second. -/
structure Match where
  a : Nat
  b : Nat
  size : Nat
deriving DecidableEq, Repr

/-- Length of the longest common leading run of two lists. -/
def commonPrefixLen : List Char → List Char → Nat
  | x :: xs, y :: ys => if x = y then commonPrefixLen xs ys + 1 else 0
  | _, _ => 0

/-- All candidate block starts (i, j), i over the first sequence and j over
the second, in the order difflib resolves ties: ascending i, then ascending j. -/
def matchCandidates (s1 s2 : List Char) : List (Nat × Nat) :=
  (List.range s1.length).flatMap (fun i => (List.range s2.length).map (fun j => (i, j)))

/-- Keep the larger of the current best block and the block starting at the
candidate pair; on ties the earlier candidate is kept. -/
def matchStep (s1 s2 : List Char) (best : Match) (c : Nat × Nat) : Match :=
  if best.size < commonPrefixLen (s1.drop c.1) (s2.drop c.2) then
    ⟨c.1, c.2, commonPrefixLen (s1.drop c.1) (s2.drop c.2)⟩
  else best

/-- Embeds difflib.SequenceMatcher.find_longest_match(0, len(s1), 0, len(s2))
in its junk-free regime (the second sequence, the primer, is far below the
200-element autojunk threshold): the longest block common to both sequences,
ties broken toward the smallest offset in s1, then the smallest offset in s2;
Match 0 0 0 when the sequences share no element. -/
def findLongestMatch (s1 s2 : List Char) : Match :=
  (matchCandidates s1 s2).foldl (matchStep s1 s2) ⟨0, 0, 0⟩

/-- Embeds trim_primer (strip_primer_tails.py lines 132-145): find the
longest common block between the read and the primer; when its size exceeds
min_primer_match and its offset b into the primer is at most
max_primer_offset, return the read truncated to the block start, else
return the read unchanged. -/
def trim_primer (primer : List Char) (sequence : Read)
    (min_primer_match max_primer_offset : Int) : Read :=
  let mtch := findLongestMatch sequence.sequence primer
  if min_primer_match < (mtch.size : Int) ∧ (mtch.b : Int) ≤ max_primer_offset then
    sequence.truncate mtch.a
  else
    sequence

/-- Embeds rfind_if_not (lines 113-116): the first index i, scanning from
len(things)-1 down to 1, whose element is not tagged, defaulting to
len(things).  The Python range stops before index 0, so index 0 is never
inspected; the embedding reproduces that exactly. -/
def rfind_if_not (tagger : Int → Bool) (things : List Int) : Nat :=
  (((List.range' 1 (things.length - 1)).reverse.find?
      (fun i => !(tagger (things.getD i 0)))).getD things.length)

/-- Embeds clean_for_illumina_flag (lines 119-129): locate the last index
kept by rfind_if_not with tagger (score equals 2) and truncate the read to
that index inclusive. -/
def clean_for_illumina_flag (sequence : Read) : Read :=
  let scores := sequence.quality
  let good_quality_end := rfind_if_not (fun x => x == 2) scores
  sequence.truncate (good_quality_end + 1)

/-- Embeds processed_sequences (lines 97-110): the three generator stages.
Python truthiness of a SeqRecord is length being nonzero, so each of the two
guards drops exactly the empty reads of its stage. -/
def processed_sequences (primer : List Char) (sequences : List Read)
    (min_sequence_len min_primer_match max_primer_offset : Int) : List Read :=
  let trimmed_sequences :=
    (sequences.filter (fun s => !s.sequence.isEmpty)).map
      (fun s => trim_primer primer s min_primer_match max_primer_offset)
  let clean_sequences :=
    (trimmed_sequences.filter (fun s => !s.sequence.isEmpty)).map
      clean_for_illumina_flag
  clean_sequences.filter
    (fun s => decide (min_sequence_len ≤ (s.sequence.length : Int)))

/-- Written from the claim, for refinement comparison with
processed_sequences: exactly those input reads whose image under primer trim
then quality trim reaches the minimum length, each emitted as that image, in
input order. -/
def pipelineSpec (primer : List Char) (sequences : List Read)
    (min_sequence_len min_primer_match max_primer_offset : Int) : List Read :=
  (sequences.filter (fun r => decide (min_sequence_len ≤
      ((clean_for_illumina_flag
          (trim_primer primer r min_primer_match max_primer_offset)).sequence.length : Int)))).map
    (fun r => clean_for_illumina_flag
        (trim_primer primer r min_primer_match max_primer_offset))

/-- Outcome of the dispatch loop of main (lines 52-68): the files for which
a worker process is created (in argument order), and the files logged fatal
as missing. -/
structure DispatchState where
  processes : List String
  fatal_logs : List String
deriving DecidableEq, Repr

/-- Embeds the dispatch loop of main (lines 52-68): walk the argument list;
an existing file contributes a worker process, a missing file contributes a
fatal log entry and nothing else (logging.fatal only logs, it does not
abort), and every process collected is then started and joined. -/
def dispatchFiles (file_exists : String → Bool) (args : List String) : DispatchState :=
  args.foldl
    (fun st f =>
      if file_exists f then ⟨st.processes ++ [f], st.fatal_logs⟩
      else ⟨st.processes, st.fatal_logs ++ [f]⟩)
    ⟨[], []⟩

/-- The primer of the test suite and of scenario A. -/
def primerA : List Char := "TCGTATGCCGTCTTCTGCTTG".toList

/-- Scenario A read: 41 T symbols followed by the full primer. -/
def readA : Read := ⟨List.replicate 41 'T' ++ primerA, List.replicate 62 33, "scenario-a"⟩

/-- A read whose only non-sentinel quality score sits at index 0. -/
def readBugQuality : Read := ⟨['A', 'T'], [50, 2], "bug"⟩

/-- A read of length zero. -/
def emptyRead : Read := ⟨[], [], "empty"⟩

/-- A read whose quality scores are all the sentinel 2. -/
def readAllSentinel : Read := ⟨['A', 'C'], [2, 2], "sentinel"⟩

/-- An ordinary short read with good quality everywhere. -/
def readPlain : Read := ⟨['C', 'A', 'G'], [30, 31, 32], "plain"⟩

/-- A read carrying the witness primer as a proper suffix. -/
def readW : Read := ⟨['C', 'C', 'A', 'G', 'T'], [30, 30, 30, 30, 30], "wit"⟩

section Lemmas

theorem commonPrefixLen_nil_left (ys : List Char) : commonPrefixLen [] ys = 0 := by
  cases ys <;> rfl

theorem commonPrefixLen_nil_right (xs : List Char) : commonPrefixLen xs [] = 0 := by
  cases xs <;> rfl

theorem commonPrefixLen_le_length_left : ∀ xs ys : List Char,
    commonPrefixLen xs ys ≤ xs.length
  | [], ys => by simp [commonPrefixLen_nil_left]
  | _ :: _, [] => by simp [commonPrefixLen_nil_right]
  | x :: xs, y :: ys => by
    simp only [commonPrefixLen, List.length_cons]
    split
    · exact Nat.succ_le_succ (commonPrefixLen_le_length_left xs ys)
    · exact Nat.zero_le _

theorem commonPrefixLen_le_length_right : ∀ xs ys : List Char,
    commonPrefixLen xs ys ≤ ys.length
  | [], ys => by simp [commonPrefixLen_nil_left]
  | _ :: _, [] => by simp [commonPrefixLen_nil_right]
  | x :: xs, y :: ys => by
    simp only [commonPrefixLen, List.length_cons]
    split
    · exact Nat.succ_le_succ (commonPrefixLen_le_length_right xs ys)
    · exact Nat.zero_le _

theorem take_commonPrefixLen_eq : ∀ xs ys : List Char,
    xs.take (commonPrefixLen xs ys) = ys.take (commonPrefixLen xs ys)
  | [], ys => by simp [commonPrefixLen_nil_left]
  | _ :: _, [] => by simp [commonPrefixLen_nil_right]
  | x :: xs, y :: ys => by
    simp only [commonPrefixLen]
    split
    · next h =>
      simp only [List.take_succ_cons, h, take_commonPrefixLen_eq xs ys]
    · simp

theorem le_commonPrefixLen_of_take_eq : ∀ (k : Nat) (xs ys : List Char),
    k ≤ xs.length → k ≤ ys.length → xs.take k = ys.take k →
    k ≤ commonPrefixLen xs ys
  | 0, _, _, _, _, _ => Nat.zero_le _
  | _ + 1, [], _, hx, _, _ => by simp at hx
  | _ + 1, _ :: _, [], _, hy, _ => by simp at hy
  | k + 1, x :: xs, y :: ys, hx, hy, h => by
    simp only [List.take_succ_cons, List.cons.injEq] at h
    obtain ⟨rfl, h2⟩ := h
    simp only [commonPrefixLen, if_pos rfl]
    exact Nat.succ_le_succ (le_commonPrefixLen_of_take_eq k xs ys
      (by simpa using hx) (by simpa using hy) h2)

theorem take_eq_take_of_le_commonPrefixLen (k : Nat) (xs ys : List Char)
    (h : k ≤ commonPrefixLen xs ys) : xs.take k = ys.take k := by
  have h1 := take_commonPrefixLen_eq xs ys
  have hx : xs.take k = (xs.take (commonPrefixLen xs ys)).take k := by
    rw [List.take_take, Nat.min_eq_left h]
  rw [hx, h1, List.take_take, Nat.min_eq_left h]

theorem matchStep_size_le (s1 s2 : List Char) (best : Match) (c : Nat × Nat) :
    best.size ≤ (matchStep s1 s2 best c).size := by
  simp only [matchStep]
  split
  · next h => exact Nat.le_of_lt h
  · exact Nat.le_refl _

theorem cpl_le_matchStep (s1 s2 : List Char) (best : Match) (c : Nat × Nat) :
    commonPrefixLen (s1.drop c.1) (s2.drop c.2) ≤ (matchStep s1 s2 best c).size := by
  simp only [matchStep]
  split
  · exact Nat.le_refl _
  · next h => exact Nat.le_of_not_lt h

theorem foldl_matchStep_size_mono (s1 s2 : List Char) :
    ∀ (l : List (Nat × Nat)) (best : Match),
      best.size ≤ (l.foldl (matchStep s1 s2) best).size
  | [], _ => Nat.le_refl _
  | c :: l, best =>
    Nat.le_trans (matchStep_size_le s1 s2 best c)
      (foldl_matchStep_size_mono s1 s2 l _)

theorem cpl_le_foldl_matchStep (s1 s2 : List Char) :
    ∀ (l : List (Nat × Nat)) (best : Match) (c : Nat × Nat), c ∈ l →
      commonPrefixLen (s1.drop c.1) (s2.drop c.2) ≤ (l.foldl (matchStep s1 s2) best).size
  | c' :: l, best, c, hc => by
    rcases List.mem_cons.mp hc with rfl | hmem
    · exact Nat.le_trans (cpl_le_matchStep s1 s2 best c)
        (foldl_matchStep_size_mono s1 s2 l _)
    · exact cpl_le_foldl_matchStep s1 s2 l _ c hmem

theorem foldl_matchStep_valid (s1 s2 : List Char) :
    ∀ (l : List (Nat × Nat)) (best : Match),
      best.size ≤ commonPrefixLen (s1.drop best.a) (s2.drop best.b) →
      (l.foldl (matchStep s1 s2) best).size ≤
        commonPrefixLen (s1.drop (l.foldl (matchStep s1 s2) best).a)
          (s2.drop (l.foldl (matchStep s1 s2) best).b)
  | [], _, h => h
  | c :: l, best, h => by
    apply foldl_matchStep_valid s1 s2 l (matchStep s1 s2 best c)
    simp only [matchStep]
    split
    · exact Nat.le_refl _
    · exact h

theorem findLongestMatch_is_block (s1 s2 : List Char) :
    (findLongestMatch s1 s2).size ≤
      commonPrefixLen (s1.drop (findLongestMatch s1 s2).a)
        (s2.drop (findLongestMatch s1 s2).b) := by
  unfold findLongestMatch
  exact foldl_matchStep_valid s1 s2 _ ⟨0, 0, 0⟩ (Nat.zero_le _)

theorem cpl_le_findLongestMatch (s1 s2 : List Char) (a b : Nat) :
    commonPrefixLen (s1.drop a) (s2.drop b) ≤ (findLongestMatch s1 s2).size := by
  by_cases ha : a < s1.length
  · by_cases hb : b < s2.length
    · exact cpl_le_foldl_matchStep s1 s2 _ _ (a, b)
        (List.mem_flatMap.mpr ⟨a, List.mem_range.mpr ha,
          List.mem_map.mpr ⟨b, List.mem_range.mpr hb, rfl⟩⟩)
    · rw [List.drop_eq_nil_of_le (Nat.le_of_not_lt hb), commonPrefixLen_nil_right]
      exact Nat.zero_le _
  · rw [List.drop_eq_nil_of_le (Nat.le_of_not_lt ha), commonPrefixLen_nil_left]
    exact Nat.zero_le _

theorem trim_primer_length_le (primer : List Char) (r : Read) (mpm mpo : Int) :
    (trim_primer primer r mpm mpo).sequence.length ≤ r.sequence.length := by
  simp only [trim_primer]
  split
  · simp [Read.truncate]
  · exact Nat.le_refl _

theorem clean_length_le (r : Read) :
    (clean_for_illumina_flag r).sequence.length ≤ r.sequence.length := by
  simp [clean_for_illumina_flag, Read.truncate]

theorem clean_length_pos (r : Read) (h : 0 < r.sequence.length) :
    0 < (clean_for_illumina_flag r).sequence.length := by
  simp only [clean_for_illumina_flag, Read.truncate, List.length_take]
  omega

theorem Read.truncate_eq_self (r : Read) (n : Nat)
    (h1 : r.sequence.length ≤ n) (h2 : r.quality.length ≤ n) : r.truncate n = r := by
  cases r
  simp_all [Read.truncate, List.take_of_length_le]

theorem rfind_if_not_eq_length (tagger : Int → Bool) (things : List Int)
    (h : ∀ x ∈ things, tagger x = true) : rfind_if_not tagger things = things.length := by
  unfold rfind_if_not
  rw [List.find?_eq_none.mpr]
  · rfl
  · intro i hi
    simp only [List.mem_reverse, List.mem_range'_1] at hi
    have hilen : i < things.length := by omega
    rw [List.getD_eq_getElem _ _ hilen, h things[i] (List.getElem_mem hilen)]
    simp

theorem processed_sequences_cons (primer : List Char) (r : Read) (rest : List Read)
    (msl mpm mpo : Int) :
    processed_sequences primer (r :: rest) msl mpm mpo =
      (if (!r.sequence.isEmpty)
          && (!(trim_primer primer r mpm mpo).sequence.isEmpty)
          && decide (msl ≤
              ((clean_for_illumina_flag (trim_primer primer r mpm mpo)).sequence.length : Int))
       then [clean_for_illumina_flag (trim_primer primer r mpm mpo)]
       else [])
      ++ processed_sequences primer rest msl mpm mpo := by
  by_cases h1 : r.sequence.isEmpty
  · simp [processed_sequences, List.filter_cons, h1]
  · by_cases h2 : (trim_primer primer r mpm mpo).sequence.isEmpty
    · simp [processed_sequences, List.filter_cons, h1, h2]
    · by_cases h3 : msl ≤
          ((clean_for_illumina_flag (trim_primer primer r mpm mpo)).sequence.length : Int)
      · simp [processed_sequences, List.filter_cons, h1, h2, h3]
      · simp [processed_sequences, List.filter_cons, h1, h2, h3]

theorem pipelineSpec_cons (primer : List Char) (r : Read) (rest : List Read)
    (msl mpm mpo : Int) :
    pipelineSpec primer (r :: rest) msl mpm mpo =
      (if decide (msl ≤
            ((clean_for_illumina_flag (trim_primer primer r mpm mpo)).sequence.length : Int))
       then [clean_for_illumina_flag (trim_primer primer r mpm mpo)]
       else [])
      ++ pipelineSpec primer rest msl mpm mpo := by
  by_cases h3 : msl ≤
      ((clean_for_illumina_flag (trim_primer primer r mpm mpo)).sequence.length : Int) <;>
    simp [pipelineSpec, List.filter_cons, h3]

theorem processed_eq_spec_aux (primer : List Char) (msl mpm mpo : Int) (h : 1 ≤ msl) :
    ∀ seqs : List Read,
      processed_sequences primer seqs msl mpm mpo = pipelineSpec primer seqs msl mpm mpo
  | [] => by simp [processed_sequences, pipelineSpec]
  | r :: rest => by
    rw [processed_sequences_cons, pipelineSpec_cons,
      processed_eq_spec_aux primer msl mpm mpo h rest]
    congr 1
    by_cases h3 : msl ≤
        ((clean_for_illumina_flag (trim_primer primer r mpm mpo)).sequence.length : Int)
    · have hlen : 1 ≤ (clean_for_illumina_flag
          (trim_primer primer r mpm mpo)).sequence.length := by
        have hh := le_trans h h3
        exact_mod_cast hh
      have htrim : 1 ≤ (trim_primer primer r mpm mpo).sequence.length :=
        le_trans hlen (clean_length_le _)
      have hr : 1 ≤ r.sequence.length :=
        le_trans htrim (trim_primer_length_le primer r mpm mpo)
      have e1 : r.sequence.isEmpty = false :=
        List.isEmpty_eq_false.mpr (List.ne_nil_of_length_pos hr)
      have e2 : (trim_primer primer r mpm mpo).sequence.isEmpty = false :=
        List.isEmpty_eq_false.mpr (List.ne_nil_of_length_pos htrim)
      simp [h3, e1, e2]
    · simp [h3]

theorem mem_processed (primer : List Char) (seqs : List Read) (msl mpm mpo : Int)
    (s : Read) (hs : s ∈ processed_sequences primer seqs msl mpm mpo) :
    ∃ r ∈ seqs, s = clean_for_illumina_flag (trim_primer primer r mpm mpo) := by
  simp only [processed_sequences, List.mem_filter, List.mem_map] at hs
  obtain ⟨⟨t, ht, rfl⟩, _⟩ := hs
  obtain ⟨⟨r, ⟨hr, _⟩, rfl⟩, _⟩ := ht
  exact ⟨r, hr, rfl⟩

theorem dispatch_foldl (fe : String → Bool) :
    ∀ (args : List String) (st : DispatchState),
      args.foldl
        (fun st f =>
          if fe f then ⟨st.processes ++ [f], st.fatal_logs⟩
          else ⟨st.processes, st.fatal_logs ++ [f]⟩) st
        = ⟨st.processes ++ args.filter fe,
           st.fatal_logs ++ args.filter (fun f => !(fe f))⟩
  | [], st => by simp
  | a :: args, st => by
    by_cases hfe : fe a
    · simp [List.filter_cons, hfe, List.foldl_cons, dispatch_foldl fe args]
    · simp [List.filter_cons, hfe, List.foldl_cons, dispatch_foldl fe args]

end Lemmas

/-- C1: trim_primer computes the longest-common-substring Match between the
read and the primer (the returned block is common to both, and no common
block is longer) and returns the read truncated to the interval from 0 to
the block start exactly when the block size exceeds min_primer_match and
the block offset into the primer is at most max_primer_offset; in every
other case it returns the read unchanged, and, being a total function, it
never raises an error. -/
theorem trim_primer_correct (primer : List Char) (r : Read)
    (min_primer_match max_primer_offset : Int) :
    ((r.sequence.drop (findLongestMatch r.sequence primer).a).take
        (findLongestMatch r.sequence primer).size
      = (primer.drop (findLongestMatch r.sequence primer).b).take
          (findLongestMatch r.sequence primer).size)
    ∧ (∀ a b k : Nat, a + k ≤ r.sequence.length → b + k ≤ primer.length →
        (r.sequence.drop a).take k = (primer.drop b).take k →
        k ≤ (findLongestMatch r.sequence primer).size)
    ∧ trim_primer primer r min_primer_match max_primer_offset =
        (if min_primer_match < ((findLongestMatch r.sequence primer).size : Int)
            ∧ ((findLongestMatch r.sequence primer).b : Int) ≤ max_primer_offset
         then r.truncate (findLongestMatch r.sequence primer).a
         else r) := by
  refine ⟨?_, ?_, rfl⟩
  · exact take_eq_take_of_le_commonPrefixLen _ _ _ (findLongestMatch_is_block r.sequence primer)
  · intro a b k hak hbk htake
    have h1 : k ≤ commonPrefixLen (r.sequence.drop a) (primer.drop b) :=
      le_commonPrefixLen_of_take_eq k _ _
        (by simp only [List.length_drop]; omega)
        (by simp only [List.length_drop]; omega) htake
    exact Nat.le_trans h1 (cpl_le_findLongestMatch r.sequence primer a b)

/-- Witness for C1 at a concrete input: the primer AGT occurs as a suffix of
the read CCAGT and is stripped, leaving CC. -/
theorem trim_primer_correct_witness :
    trim_primer ['A', 'G', 'T'] readW 1 1 = readW.truncate 2 :=
  (trim_primer_correct ['A', 'G', 'T'] readW 1 1).2.2.trans (by decide)

/-- C2: the code contradicts the claim (and the docstring of rfind_if_not)
when the only non-sentinel quality score sits at index 0: the reverse scan
of rfind_if_not stops at index 1, so the read ⟨AT, [50, 2]⟩ is returned
unchanged instead of truncated to index 0 inclusive (length 1). -/
theorem clean_skips_index_zero :
    clean_for_illumina_flag readBugQuality = readBugQuality
    ∧ readBugQuality.quality.getD 0 0 ≠ 2
    ∧ readBugQuality ≠ readBugQuality.truncate 1 := by decide

/-- C3: a read whose quality scores are all the sentinel 2 (index 0
included) is returned unchanged by clean_for_illumina_flag, because the
helper reports its not-found default, the list length. -/
theorem clean_all_sentinel_unchanged (r : Read) (hwf : r.wf)
    (h : ∀ q ∈ r.quality, q = 2) : clean_for_illumina_flag r = r := by
  simp only [clean_for_illumina_flag]
  rw [rfind_if_not_eq_length _ _ (fun x hx => by simp [h x hx])]
  have hwf' : r.sequence.length = r.quality.length := hwf
  exact Read.truncate_eq_self r _ (by omega) (by omega)

/-- Witness for C3: a concrete all-sentinel read passes through unchanged. -/
theorem clean_all_sentinel_unchanged_witness :
    clean_for_illumina_flag readAllSentinel = readAllSentinel :=
  clean_all_sentinel_unchanged readAllSentinel (by rfl) (by decide)

/-- C4 as stated is refuted at min_sequence_len = 0 with a single empty
read: the generator guards drop the empty read before the length filter,
while the claimed characterization keeps it since its final length 0
reaches the threshold 0. -/
theorem pipeline_filter_counterexample :
    processed_sequences ['A'] [emptyRead] 0 6 1 ≠ pipelineSpec ['A'] [emptyRead] 0 6 1 := by
  decide

/-- C4 amended: whenever min_sequence_len is at least 1 (the truthiness
guards of the generators then drop only reads the length filter would drop
anyway), the pipeline output equals, in input order, exactly those reads
whose image under primer trim then quality trim reaches min_sequence_len,
each emitted as that image; nothing is reordered, duplicated or invented. -/
theorem pipeline_is_filtered_map (primer : List Char) (seqs : List Read)
    (msl mpm mpo : Int) (h : 1 ≤ msl) :
    processed_sequences primer seqs msl mpm mpo = pipelineSpec primer seqs msl mpm mpo :=
  processed_eq_spec_aux primer msl mpm mpo h seqs

/-- Witness for C4: the amended equality at a concrete stream and
threshold 1. -/
theorem pipeline_is_filtered_map_witness :
    processed_sequences primerA [readPlain, emptyRead] 1 10 1
      = pipelineSpec primerA [readPlain, emptyRead] 1 10 1 :=
  pipeline_is_filtered_map primerA [readPlain, emptyRead] 1 10 1 (by decide)

/-- C5: trim_primer and clean_for_illumina_flag never lengthen a read, and
every read the pipeline emits is no longer than the input read it came
from. -/
theorem trimming_only_shortens (primer : List Char) (msl mpm mpo : Int)
    (seqs : List Read) :
    (∀ r : Read, (trim_primer primer r mpm mpo).sequence.length ≤ r.sequence.length)
    ∧ (∀ r : Read, (clean_for_illumina_flag r).sequence.length ≤ r.sequence.length)
    ∧ (∀ s ∈ processed_sequences primer seqs msl mpm mpo,
        ∃ r ∈ seqs, s.sequence.length ≤ r.sequence.length) := by
  refine ⟨fun r => trim_primer_length_le primer r mpm mpo, fun r => clean_length_le r,
    fun s hs => ?_⟩
  obtain ⟨r, hr, rfl⟩ := mem_processed primer seqs msl mpm mpo s hs
  exact ⟨r, hr, Nat.le_trans (clean_length_le _) (trim_primer_length_le primer r mpm mpo)⟩

/-- Witness for C5 at a concrete read: trimming CCAGT with primer AGT does
not lengthen it. -/
theorem trimming_only_shortens_witness :
    (trim_primer ['A', 'G', 'T'] readW 1 1).sequence.length ≤ readW.sequence.length :=
  (trimming_only_shortens ['A', 'G', 'T'] 18 1 1 []).1 readW

/-- C6: when the longest common block between read and primer fails the
qualifying test, trim_primer is idempotent on that read. -/
theorem trim_primer_idempotent (primer : List Char) (r : Read) (mpm mpo : Int)
    (h : ¬(mpm < ((findLongestMatch r.sequence primer).size : Int)
          ∧ ((findLongestMatch r.sequence primer).b : Int) ≤ mpo)) :
    trim_primer primer (trim_primer primer r mpm mpo) mpm mpo
      = trim_primer primer r mpm mpo := by
  have h1 : trim_primer primer r mpm mpo = r := by
    simp only [trim_primer, if_neg h]
  simp [h1]

/-- Witness for C6: a read sharing no symbol with the primer is a fixed
point of trim_primer twice over. -/
theorem trim_primer_idempotent_witness :
    trim_primer ['G', 'G', 'G'] (trim_primer ['G', 'G', 'G'] readPlain 6 1) 6 1
      = trim_primer ['G', 'G', 'G'] readPlain 6 1 :=
  trim_primer_idempotent ['G', 'G', 'G'] readPlain 6 1 (by decide)

set_option maxRecDepth 3000 in
/-- C7: scenario A: with the primer TCGTATGCCGTCTTCTGCTTG, thresholds 10
and 1, a read of 41 T symbols with the primer appended is trimmed back to
exactly the 41 T symbols. -/
theorem scenario_a_strips_primer_suffix :
    readA.sequence = List.replicate 41 'T' ++ primerA
    ∧ (trim_primer primerA readA 10 1).sequence = List.replicate 41 'T' := by
  refine ⟨rfl, ?_⟩
  have hmax : commonPrefixLen (readA.sequence.drop 41) (primerA.drop 0)
      ≤ (findLongestMatch readA.sequence primerA).size :=
    cpl_le_findLongestMatch _ _ 41 0
  have hcpl41 : commonPrefixLen (readA.sequence.drop 41) (primerA.drop 0) = 21 := by
    decide
  have hblock := findLongestMatch_is_block readA.sequence primerA
  have hubB := commonPrefixLen_le_length_right
    (readA.sequence.drop (findLongestMatch readA.sequence primerA).a)
    (primerA.drop (findLongestMatch readA.sequence primerA).b)
  have hubA := commonPrefixLen_le_length_left
    (readA.sequence.drop (findLongestMatch readA.sequence primerA).a)
    (primerA.drop (findLongestMatch readA.sequence primerA).b)
  have hlenp : primerA.length = 21 := by decide
  have hlenr : readA.sequence.length = 62 := by decide
  rw [List.length_drop, hlenp] at hubB
  rw [List.length_drop, hlenr] at hubA
  have hsize : (findLongestMatch readA.sequence primerA).size = 21 := by omega
  have hb : (findLongestMatch readA.sequence primerA).b = 0 := by omega
  have ha41 : (findLongestMatch readA.sequence primerA).a ≤ 41 := by omega
  have htake := take_eq_take_of_le_commonPrefixLen _
    (readA.sequence.drop (findLongestMatch readA.sequence primerA).a)
    (primerA.drop (findLongestMatch readA.sequence primerA).b) hblock
  rw [hsize, hb, List.drop_zero] at htake
  have huniq : ∀ a : Nat, a < 42 →
      (readA.sequence.drop a).take 21 = primerA.take 21 → a = 41 := by decide
  have ha : (findLongestMatch readA.sequence primerA).a = 41 :=
    huniq (findLongestMatch readA.sequence primerA).a (by omega) htake
  have htrim : trim_primer primerA readA 10 1 =
      (if (10 : Int) < ((findLongestMatch readA.sequence primerA).size : Int)
          ∧ (((findLongestMatch readA.sequence primerA).b : Int) ≤ (1 : Int))
       then readA.truncate (findLongestMatch readA.sequence primerA).a
       else readA) := rfl
  rw [hsize, hb, ha] at htrim
  rw [htrim, if_pos (by decide)]
  decide

/-- C8: both pipeline transforms preserve the Read invariant that sequence
and quality have equal length, since slicing truncates the two lists in
lockstep; being pure functions they return a new Read and leave the input
untouched. -/
theorem transforms_preserve_wf (primer : List Char) (r : Read) (mpm mpo : Int)
    (h : r.wf) :
    (trim_primer primer r mpm mpo).wf ∧ (clean_for_illumina_flag r).wf := by
  have h' : r.sequence.length = r.quality.length := h
  constructor
  · simp only [trim_primer]
    split
    · simp only [Read.wf, Read.truncate, List.length_take]
      omega
    · exact h
  · simp only [Read.wf, clean_for_illumina_flag, Read.truncate, List.length_take]
    omega

/-- Witness for C8 at a concrete well-formed read. -/
theorem transforms_preserve_wf_witness :
    (trim_primer primerA readPlain 10 1).wf ∧ (clean_for_illumina_flag readPlain).wf :=
  transforms_preserve_wf primerA readPlain 10 1 (by rfl)

/-- C9: the dispatch loop of main creates one unit of work for exactly the
input paths that exist, in argument order, and logs each missing path as
fatal without removing any existing path from the launch list: a missing
file is skipped and the remaining units still run. -/
theorem dispatcher_starts_exactly_existing (fe : String → Bool) (args : List String) :
    (dispatchFiles fe args).processes = args.filter fe
    ∧ (dispatchFiles fe args).fatal_logs = args.filter (fun f => !(fe f)) := by
  unfold dispatchFiles
  rw [dispatch_foldl]
  simp

/-- C10: clean_for_illumina_flag always returns a read (a truncation of its
input, never a missing value), so inside the pipeline every read that
enters the quality-trim stage reaches the minimum-length filter: the stage
is a pure map that preserves the count of reads. -/
theorem quality_trim_stage_total (primer : List Char) (seqs : List Read)
    (msl mpm mpo : Int) :
    (∀ r : Read, clean_for_illumina_flag r
        = r.truncate (rfind_if_not (fun x => x == 2) r.quality + 1))
    ∧ processed_sequences primer seqs msl mpm mpo
        = ((((seqs.filter (fun s => !s.sequence.isEmpty)).map
              (fun s => trim_primer primer s mpm mpo)).filter
                (fun s => !s.sequence.isEmpty)).map clean_for_illumina_flag).filter
            (fun s => decide (msl ≤ (s.sequence.length : Int)))
    ∧ ((((seqs.filter (fun s => !s.sequence.isEmpty)).map
          (fun s => trim_primer primer s mpm mpo)).filter
            (fun s => !s.sequence.isEmpty)).map clean_for_illumina_flag).length
        = (((seqs.filter (fun s => !s.sequence.isEmpty)).map
            (fun s => trim_primer primer s mpm mpo)).filter
              (fun s => !s.sequence.isEmpty)).length :=
  ⟨fun _ => rfl, rfl, List.length_map _ _⟩

end StripPrimerTails
